import Mathlib

/-!
Shallow embedding of `brentmin` from `pyGPs/Core/tools.py` (the Brent
one-dimensional minimization method with golden-section fallback).

Modelling conventions:
* Python floats are idealized as exact rationals (`ℚ`).  The three
  float-valued constants of the source are taken at their exact IEEE-754
  double values: `eps = sys.float_info.epsilon = 2⁻⁵²`,
  `seps = sqrt(eps) = 2⁻²⁶` (exact, since 52 is even), and the
  golden-section constant `c = 0.5*(3.0 - sqrt(5.0))`, whose double value
  is the dyadic rational 215027748241771/2⁴⁹.
* The objective `f(x, *args)` returning `[y, aux...]` is modelled as
  `f : ℚ → ℚ × α` where the first component is the value `vargout[0][0]`
  and the second gathers the auxiliary outputs `vargout[1:]` (the fixed
  extra arguments `*args` are considered already bound inside `f`).
* The `while` loop of the source terminates for every objective because
  `funccount` strictly increases each iteration and the loop breaks as
  soon as `funccount >= Nitmax`; it is rendered with a fuel parameter,
  and `brentLoop_fuel_stable` below shows the fuel chosen in `brentCore`
  is never exhausted, so the rendering agrees with the unbounded loop.
-/

namespace tools

/-- `sys.float_info.epsilon` for IEEE-754 double precision, exactly. -/
def eps : ℚ := 1 / 2 ^ 52

/-- `seps = sqrt(eps)`: exact in double precision since `eps = 2⁻⁵²`. -/
def seps : ℚ := 1 / 2 ^ 26

/-- `c = 0.5*(3.0 - sqrt(5.0))` of the source, at its exact double value. -/
def goldenC : ℚ := 215027748241771 / 2 ^ 49

/-- Python 2 built-in three-way comparison `cmp(x, y)` on numbers. -/
def cmp (x y : ℚ) : ℤ :=
  if x < y then -1 else if x = y then 0 else 1

/-- The sign-resolution idiom of the source, used for step directions:
`si = cmp(d, 0)` followed by `if d == 0: si += 1`, so the zero case is
mapped to `+1`. -/
def signFix (d : ℚ) : ℤ :=
  cmp d 0 + (if d = 0 then 1 else 0)

/-- The transient loop state of `brentmin` (lines 117–132 of the source
create it; the main loop updates it).  `varargout` holds the auxiliary
outputs of the most recent objective evaluation. -/
structure BrentState (α : Type) where
  a : ℚ
  b : ℚ
  v : ℚ
  w : ℚ
  xf : ℚ
  d : ℚ
  e : ℚ
  fv : ℚ
  fw : ℚ
  fx : ℚ
  xm : ℚ
  tol1 : ℚ
  tol2 : ℚ
  funccount : ℕ
  varargout : α
deriving DecidableEq, Repr

/-- The result row `[xmin, fmin, funccount] + varargout` of `brentmin`. -/
structure BrentResult (α : Type) where
  xmin : ℚ
  fmin : ℚ
  funccount : ℕ
  varargout : α
deriving DecidableEq, Repr

/-- State after the start-point initialization (source lines 110–132):
endpoints have been evaluated (count 2), the interior golden-section
start point `v = w = xf = a + c*(b-a)` evaluated (count 3), and the
midpoint/tolerances computed. -/
def brentInit (xlow xupp tol : ℚ) (f : ℚ → ℚ × α) : BrentState α :=
  let a := xlow
  let b := xupp
  let v := a + goldenC * (b - a)
  let fx := (f v).1
  { a := a, b := b, v := v, w := v, xf := v, d := 0, e := 0,
    fv := fx, fw := fx, fx := fx,
    xm := (a + b) / 2,
    tol1 := seps * |v| + tol / 3,
    tol2 := 2 * (seps * |v| + tol / 3),
    funccount := 3,
    varargout := (f v).2 }

/-- Lines 135–166 of the source: decide between a parabolic
interpolation step and a golden-section step.  Returns the proposed
step `d` together with the new memory value `e` (set to the previous
`d` when a parabolic fit was attempted, and to the golden-section
interval otherwise). -/
def brentProposal (s : BrentState α) : ℚ × ℚ :=
  if |s.e| > s.tol1 then
    -- fit parabola through (v, fv), (w, fw), (xf, fx)
    let r := (s.xf - s.w) * (s.fx - s.fv)
    let q := (s.xf - s.v) * (s.fx - s.fw)
    let p := (s.xf - s.v) * q - (s.xf - s.w) * r
    let q2 := 2 * (q - r)
    let p2 := if q2 > 0 then -p else p
    let q3 := |q2|
    let r2 := s.e
    let e2 := s.d
    if |p2| < |(1 / 2) * q3 * r2| ∧ p2 > q3 * (s.a - s.xf) ∧ p2 < q3 * (s.b - s.xf) then
      -- parabolic interpolation step accepted
      let d2 := p2 / q3
      let x := s.xf + d2
      if x - s.a < s.tol2 ∨ s.b - x < s.tol2 then
        (s.tol1 * (signFix (s.xm - s.xf) : ℚ), e2)
      else
        (d2, e2)
    else
      -- parabola rejected: golden-section step
      let e3 := if s.xf ≥ s.xm then s.a - s.xf else s.b - s.xf
      (goldenC * e3, e3)
  else
    -- no trustworthy parabola: golden-section step
    let e3 := if s.xf ≥ s.xm then s.a - s.xf else s.b - s.xf
    (goldenC * e3, e3)

/-- Lines 167–170 of the source: the point actually evaluated, moved at
least `tol1` away from `xf` in the direction of `d` (direction `+1`
when `d = 0`). -/
def evalPoint (s : BrentState α) (d : ℚ) : ℚ :=
  s.xf + (signFix d : ℚ) * max |d| s.tol1

/-- One iteration of the main loop (source lines 134–191): propose a
step, evaluate the objective, update the bracket and the tracked point
triple, and recompute midpoint and tolerances. -/
def brentStep (tol : ℚ) (f : ℚ → ℚ × α) (s : BrentState α) : BrentState α :=
  let de := brentProposal s
  let x := evalPoint s de.1
  let fu := (f x).1
  let aux := (f x).2
  let n := s.funccount + 1
  if fu ≤ s.fx then
    let a := if x ≥ s.xf then s.xf else s.a
    let b := if x ≥ s.xf then s.b else s.xf
    let t1 := seps * |x| + tol / 3
    { a := a, b := b, v := s.w, w := s.xf, xf := x, d := de.1, e := de.2,
      fv := s.fw, fw := s.fx, fx := fu,
      xm := (a + b) / 2, tol1 := t1, tol2 := 2 * t1,
      funccount := n, varargout := aux }
  else
    let a := if x < s.xf then x else s.a
    let b := if x < s.xf then s.b else x
    let t1 := seps * |s.xf| + tol / 3
    if fu ≤ s.fw ∨ s.w = s.xf then
      { a := a, b := b, v := s.w, w := x, xf := s.xf, d := de.1, e := de.2,
        fv := s.fw, fw := fu, fx := s.fx,
        xm := (a + b) / 2, tol1 := t1, tol2 := 2 * t1,
        funccount := n, varargout := aux }
    else if fu ≤ s.fv ∨ s.v = s.xf ∨ s.v = s.w then
      { a := a, b := b, v := x, w := s.w, xf := s.xf, d := de.1, e := de.2,
        fv := fu, fw := s.fw, fx := s.fx,
        xm := (a + b) / 2, tol1 := t1, tol2 := 2 * t1,
        funccount := n, varargout := aux }
    else
      { a := a, b := b, v := s.v, w := s.w, xf := s.xf, d := de.1, e := de.2,
        fv := s.fv, fw := s.fw, fx := s.fx,
        xm := (a + b) / 2, tol1 := t1, tol2 := 2 * t1,
        funccount := n, varargout := aux }

/-- The main `while` loop (source lines 134–195), rendered with fuel:
run while `|xf - xm| > tol2 - 0.5*(b - a)`, breaking as soon as
`funccount >= Nitmax` at the bottom of an iteration. -/
def brentLoop (Nitmax : ℕ) (tol : ℚ) (f : ℚ → ℚ × α) :
    ℕ → BrentState α → BrentState α
  | 0, s => s
  | n + 1, s =>
    if |s.xf - s.xm| > s.tol2 - 1 / 2 * (s.b - s.a) then
      let s2 := brentStep tol f s
      if Nitmax ≤ s2.funccount then s2
      else brentLoop Nitmax tol f n s2
    else s

/-- The state at loop exit: tolerance floored to `eps` (line 109),
initialization, then the main loop.  Fuel `Nitmax + 1` is sufficient
(`brentLoop_fuel_stable`): each iteration increments `funccount`, which
starts at 3, and the loop breaks once it reaches `Nitmax`. -/
def brentCore (xlow xupp : ℚ) (Nitmax : ℕ) (tol : ℚ) (f : ℚ → ℚ × α) :
    BrentState α :=
  brentLoop Nitmax (max tol eps) f (Nitmax + 1) (brentInit xlow xupp (max tol eps) f)

/-- `brentmin(xlow, xupp, Nitmax, tol, f, nout, *args)` (source lines
55–206).  `nout` is informational in the source (never used after its
`None` default is replaced) and is likewise unused here.  After the
loop, the endpoint values recorded up front are compared against the
best interior value (lines 196–202). -/
def brentmin (xlow xupp : ℚ) (Nitmax : ℕ) (tol : ℚ) (f : ℚ → ℚ × α)
    (nout : ℕ) : BrentResult α :=
  let fa := (f xlow).1
  let fb := (f xupp).1
  let s := brentCore xlow xupp Nitmax tol f
  if fa < s.fx ∧ fa ≤ fb then
    { xmin := xlow, fmin := fa, funccount := s.funccount, varargout := s.varargout }
  else if fb < s.fx then
    { xmin := xupp, fmin := fb, funccount := s.funccount, varargout := s.varargout }
  else
    { xmin := s.xf, fmin := s.fx, funccount := s.funccount, varargout := s.varargout }


/-- A concrete mid-search state used to instantiate the bracket
invariant: bracket `[0, 1]`, best point `2/5`, tolerance `eps`. -/
def sampleState : BrentState ℚ :=
  { a := 0, b := 1, v := 2 / 5, w := 2 / 5, xf := 2 / 5, d := 0, e := 0,
    fv := 4 / 25, fw := 4 / 25, fx := 4 / 25,
    xm := 1 / 2,
    tol1 := seps * |(2 / 5 : ℚ)| + eps / 3,
    tol2 := 2 * (seps * |(2 / 5 : ℚ)| + eps / 3),
    funccount := 3,
    varargout := 2 / 5 }

/-- A concrete objective (the square function tagged with its input)
used to instantiate universally quantified theorems. -/
def sampleObjective : ℚ → ℚ × ℚ := fun x => (x * x, x)

/-- An objective whose auxiliary output tags the abscissa it was
evaluated at: `f(x) = (x, x)`.  Its auxiliary output at the winning
abscissa must equal that abscissa. -/
def tagObjective : ℚ → ℚ × ℚ := fun x => (x, x)

/-! ### Basic bookkeeping lemmas -/

lemma brentLoop_succ (Nitmax : ℕ) (tol : ℚ) (f : ℚ → ℚ × α) (n : ℕ)
    (s : BrentState α) :
    brentLoop Nitmax tol f (n + 1) s =
      if |s.xf - s.xm| > s.tol2 - 1 / 2 * (s.b - s.a) then
        (if Nitmax ≤ (brentStep tol f s).funccount then brentStep tol f s
         else brentLoop Nitmax tol f n (brentStep tol f s))
      else s := rfl

lemma brentStep_funccount (tol : ℚ) (f : ℚ → ℚ × α) (s : BrentState α) :
    (brentStep tol f s).funccount = s.funccount + 1 := by
  simp only [brentStep]
  split_ifs <;> rfl

lemma brentLoop_funccount_le_of_lt (Nitmax : ℕ) (tol : ℚ) (f : ℚ → ℚ × α) :
    ∀ n (s : BrentState α), s.funccount < Nitmax →
      (brentLoop Nitmax tol f n s).funccount ≤ Nitmax := by
  intro n
  induction n with
  | zero => intro s h; exact h.le
  | succ n ih =>
    intro s h
    rw [brentLoop_succ]
    have hstep := brentStep_funccount tol f s
    split_ifs with hc hb
    · omega
    · exact ih _ (not_le.mp hb)
    · exact h.le

lemma brentLoop_funccount_le (Nitmax : ℕ) (tol : ℚ) (f : ℚ → ℚ × α)
    (n : ℕ) (s : BrentState α) :
    (brentLoop Nitmax tol f n s).funccount ≤ max Nitmax (s.funccount + 1) := by
  cases n with
  | zero =>
    show s.funccount ≤ max Nitmax (s.funccount + 1)
    omega
  | succ n =>
    rw [brentLoop_succ]
    have hstep := brentStep_funccount tol f s
    split_ifs with hc hb
    · omega
    · have := brentLoop_funccount_le_of_lt Nitmax tol f n (brentStep tol f s)
        (not_le.mp hb)
      omega
    · omega

lemma brentLoop_funccount_ge (Nitmax : ℕ) (tol : ℚ) (f : ℚ → ℚ × α) :
    ∀ n (s : BrentState α),
      s.funccount ≤ (brentLoop Nitmax tol f n s).funccount := by
  intro n
  induction n with
  | zero => intro s; exact le_rfl
  | succ n ih =>
    intro s
    rw [brentLoop_succ]
    have hstep := brentStep_funccount tol f s
    split_ifs with hc hb
    · omega
    · have := ih (brentStep tol f s)
      omega
    · exact le_rfl

/-- The fuel used in `brentCore` is never exhausted: once the fuel
covers the distance from `funccount` to `Nitmax`, adding more fuel does
not change the result, so the fuel rendering agrees with the unbounded
`while` loop of the source. -/
lemma brentLoop_fuel_stable (Nitmax : ℕ) (tol : ℚ) (f : ℚ → ℚ × α) :
    ∀ n (s : BrentState α), 1 ≤ n → Nitmax ≤ s.funccount + n →
      brentLoop Nitmax tol f n s = brentLoop Nitmax tol f (n + 1) s := by
  intro n
  induction n with
  | zero => intro s h; omega
  | succ n ih =>
    intro s _ hN
    rw [brentLoop_succ]
    rw [brentLoop_succ]
    have hstep := brentStep_funccount tol f s
    split_ifs with hc hb
    · rfl
    · exact ih _ (by omega) (by omega)
    · rfl

lemma brentmin_funccount_eq (xlow xupp : ℚ) (Nitmax : ℕ) (tol : ℚ)
    (f : ℚ → ℚ × α) (nout : ℕ) :
    (brentmin xlow xupp Nitmax tol f nout).funccount
      = (brentCore xlow xupp Nitmax tol f).funccount := by
  simp only [brentmin]
  split_ifs <;> rfl

/-- On a degenerate interval the loop condition fails at once, so the
loop exits with the initial state. -/
lemma brentCore_degenerate (x0 : ℚ) (Nitmax : ℕ) (tol : ℚ)
    (f : ℚ → ℚ × α) :
    brentCore x0 x0 Nitmax tol f = brentInit x0 x0 (max tol eps) f := by
  unfold brentCore
  rw [brentLoop_succ]
  rw [if_neg]
  simp only [brentInit]
  have h1 : x0 + goldenC * (x0 - x0) = x0 := by ring
  rw [h1]
  have h2 : x0 - (x0 + x0) / 2 = 0 := by ring
  rw [h2, abs_zero]
  have h3 : (0:ℚ) ≤ seps * |x0| := by
    have : (0:ℚ) ≤ seps := by norm_num [seps]
    exact mul_nonneg this (abs_nonneg _)
  have h4 : eps ≤ max tol eps := le_max_right _ _
  have h5 : (0:ℚ) < eps := by norm_num [eps]
  intro hlt
  have : (0:ℚ) < 2 * (seps * |x0| + max tol eps / 3) - 1 / 2 * (x0 - x0) := by
    have : x0 - x0 = 0 := by ring
    rw [this]
    nlinarith
  linarith

/-! ### Claim theorems: evaluation counting -/

/-- C1 (amended): the returned evaluation count never exceeds
`max Nitmax 4`.  The pre-loop evaluations already bring the count to 3,
and the budget is only consulted at the bottom of an iteration, so for
`Nitmax ≤ 3` the count can still reach 3 or 4; for `Nitmax ≥ 4` it
never exceeds `Nitmax`. -/
theorem brentmin_funccount_le_max (xlow xupp : ℚ) (Nitmax : ℕ) (tol : ℚ)
    (f : ℚ → ℚ × α) (nout : ℕ) :
    (brentmin xlow xupp Nitmax tol f nout).funccount ≤ max Nitmax 4 := by
  rw [brentmin_funccount_eq]
  unfold brentCore
  have h := brentLoop_funccount_le Nitmax (max tol eps) f (Nitmax + 1)
    (brentInit xlow xupp (max tol eps) f)
  have h3 : (brentInit xlow xupp (max tol eps) f).funccount = 3 := rfl
  omega

/-- C1 (counterexample): with the positive budget `Nitmax = 1`, the
returned evaluation count is 3, exceeding the budget: the two endpoint
evaluations and the interior start-point evaluation happen before the
budget is ever consulted. -/
theorem brentmin_funccount_exceeds_budget :
    ¬ ((brentmin 3 3 1 1 (fun x => (x * x, (0 : ℚ))) 0).funccount ≤ 1) := by
  have h : (brentmin 3 3 1 1 (fun x => (x * x, (0 : ℚ))) 0).funccount = 3 := by
    rw [brentmin_funccount_eq, brentCore_degenerate]
    rfl
  omega

/-- C10: the returned evaluation count is always at least 3: the
objective is evaluated at `xlow`, at `xupp` and at the interior
golden-section start point before the budget is first consulted, even
when the budget is smaller than 3. -/
theorem brentmin_funccount_ge_three (xlow xupp : ℚ) (Nitmax : ℕ) (tol : ℚ)
    (f : ℚ → ℚ × α) (nout : ℕ) :
    3 ≤ (brentmin xlow xupp Nitmax tol f nout).funccount := by
  rw [brentmin_funccount_eq]
  unfold brentCore
  have h := brentLoop_funccount_ge Nitmax (max tol eps) f (Nitmax + 1)
    (brentInit xlow xupp (max tol eps) f)
  have h3 : (brentInit xlow xupp (max tol eps) f).funccount = 3 := rfl
  omega

/-- C3 (counterexample): on the degenerate interval
`xlow = xupp = 3` the routine returns an evaluation count of 3, not 2:
the interior start point coincides with the endpoints but is still
evaluated and counted. -/
theorem brentmin_degenerate_count_not_two :
    ¬ ((brentmin 3 3 100 (1 / 1000000) (fun x => (x * x, (0 : ℚ))) 0).xmin = 3 ∧
       (brentmin 3 3 100 (1 / 1000000) (fun x => (x * x, (0 : ℚ))) 0).funccount = 2) := by
  have h : (brentmin 3 3 100 (1 / 1000000) (fun x => (x * x, (0 : ℚ))) 0).funccount = 3 := by
    rw [brentmin_funccount_eq, brentCore_degenerate]
    rfl
  omega

/-- C3 (amended): on a degenerate interval `xlow = xupp` the routine
returns that single point as `xmin`, with an evaluation count of
exactly 3 (both endpoints plus the coinciding interior start point). -/
theorem brentmin_degenerate_interval (x0 : ℚ) (Nitmax : ℕ) (tol : ℚ)
    (f : ℚ → ℚ × α) (nout : ℕ) :
    (brentmin x0 x0 Nitmax tol f nout).xmin = x0 ∧
    (brentmin x0 x0 Nitmax tol f nout).funccount = 3 := by
  have hx : x0 + goldenC * (x0 - x0) = x0 := by ring
  simp only [brentmin, brentCore_degenerate, brentInit, hx]
  have h1 : ¬ ((f x0).1 < (f x0).1 ∧ (f x0).1 ≤ (f x0).1) :=
    fun h => lt_irrefl _ h.1
  have h2 : ¬ ((f x0).1 < (f x0).1) := lt_irrefl _
  rw [if_neg h1, if_neg h2]
  exact ⟨rfl, rfl⟩

/-! ### Claim theorems: sign helper, tolerance floor, determinism -/

/-- C8: the sign-resolution helper used for step directions returns
`+1` on positive arguments, `-1` on negative arguments, and `+1` (not
`0`) at zero, so direction ties break toward the positive side. -/
theorem signFix_spec (d : ℚ) :
    (0 < d → signFix d = 1) ∧ (d < 0 → signFix d = -1) ∧
    (d = 0 → signFix d = 1) := by
  unfold signFix cmp
  refine ⟨fun h => ?_, fun h => ?_, fun h => ?_⟩
  · rw [if_neg (not_lt.mpr h.le), if_neg h.ne', if_neg h.ne']
    norm_num
  · rw [if_pos h, if_neg h.ne]
    norm_num
  · subst h
    norm_num

/-- C5: the tolerance is floored to machine epsilon before any use, so
any tolerance below `eps` gives exactly the same result as `eps`
itself; in particular tolerance `0` behaves like tolerance `eps`. -/
theorem brentmin_tol_floor (xlow xupp : ℚ) (Nitmax : ℕ) (f : ℚ → ℚ × α)
    (nout : ℕ) {t : ℚ} (h : t < eps) :
    brentmin xlow xupp Nitmax t f nout = brentmin xlow xupp Nitmax eps f nout := by
  unfold brentmin brentCore
  rw [max_eq_right h.le, max_self]

/-- Witness for C5 at the concrete input `t = 0` on `[0, 5]`. -/
theorem brentmin_tol_floor_witness :
    (0 : ℚ) < eps ∧
    brentmin 0 5 10 0 (fun x => ((x - 2) * (x - 2), x)) 1
      = brentmin 0 5 10 eps (fun x => ((x - 2) * (x - 2), x)) 1 := by
  have h : (0 : ℚ) < eps := by norm_num [eps]
  exact ⟨h, brentmin_tol_floor 0 5 10 (fun x => ((x - 2) * (x - 2), x)) 1 h⟩

/-- C9: `brentmin` is deterministic: it is a pure function of its
arguments, so two invocations with identical arguments and objectives
that agree pointwise produce identical result rows. -/
theorem brentmin_deterministic (xlow xupp : ℚ) (Nitmax : ℕ) (tol : ℚ)
    (nout : ℕ) {f g : ℚ → ℚ × α} (h : ∀ x, f x = g x) :
    brentmin xlow xupp Nitmax tol f nout = brentmin xlow xupp Nitmax tol g nout := by
  have hfg : f = g := funext h
  rw [hfg]

/-- Witness for C9: two syntactically different but pointwise equal
objectives on `[0, 1]` give identical result rows. -/
theorem brentmin_deterministic_witness :
    (∀ x : ℚ, ((x * x, x) : ℚ × ℚ) = (x ^ 2, x)) ∧
    brentmin 0 1 5 1 (fun x : ℚ => (x * x, x)) 0
      = brentmin 0 1 5 1 (fun x : ℚ => (x ^ 2, x)) 0 := by
  have h : ∀ x : ℚ, ((x * x, x) : ℚ × ℚ) = (x ^ 2, x) := by
    intro x
    rw [pow_two]
  exact ⟨h, brentmin_deterministic 0 1 5 1 0 h⟩

/-! ### Claim theorems: endpoint guard and minimum-step distance -/

/-- C4: the post-loop endpoint check.  With `fa = f(xlow)`,
`fb = f(xupp)` and `fx` the best interior value at loop exit: when
`fa < fx` and `fa ≤ fb` the routine returns `(xlow, fa)`; otherwise
when `fb < fx` it returns `(xupp, fb)`; and the returned `fmin` is in
every case the minimum of `fa`, `fb` and `fx`. -/
theorem brentmin_endpoint_guard (xlow xupp : ℚ) (Nitmax : ℕ) (tol : ℚ)
    (f : ℚ → ℚ × α) (nout : ℕ) :
    (brentmin xlow xupp Nitmax tol f nout).fmin
      = min ((f xlow).1) (min ((f xupp).1) ((brentCore xlow xupp Nitmax tol f).fx)) ∧
    (((f xlow).1 < (brentCore xlow xupp Nitmax tol f).fx ∧ (f xlow).1 ≤ (f xupp).1) →
      (brentmin xlow xupp Nitmax tol f nout).xmin = xlow ∧
      (brentmin xlow xupp Nitmax tol f nout).fmin = (f xlow).1) ∧
    ((¬ ((f xlow).1 < (brentCore xlow xupp Nitmax tol f).fx ∧ (f xlow).1 ≤ (f xupp).1) ∧
      (f xupp).1 < (brentCore xlow xupp Nitmax tol f).fx) →
      (brentmin xlow xupp Nitmax tol f nout).xmin = xupp ∧
      (brentmin xlow xupp Nitmax tol f nout).fmin = (f xupp).1) := by
  simp only [brentmin]
  split_ifs with h1 h2
  · refine ⟨?_, fun _ => ⟨rfl, rfl⟩, fun hn => absurd h1 hn.1⟩
    have : (f xlow).1 ≤ min ((f xupp).1) ((brentCore xlow xupp Nitmax tol f).fx) :=
      le_min h1.2 h1.1.le
    exact (min_eq_left this).symm
  · refine ⟨?_, fun hp => absurd hp h1, fun _ => ⟨rfl, rfl⟩⟩
    have hba : (f xupp).1 ≤ (f xlow).1 := by
      rcases not_and_or.mp h1 with hfx | hfb
      · exact le_trans h2.le (not_lt.mp hfx)
      · exact (not_le.mp hfb).le
    rw [min_eq_left h2.le, min_eq_right hba]
  · have hxb : (brentCore xlow xupp Nitmax tol f).fx ≤ (f xupp).1 := not_lt.mp h2
    have hxa : (brentCore xlow xupp Nitmax tol f).fx ≤ (f xlow).1 := by
      rcases not_and_or.mp h1 with hfx | hfb
      · exact not_lt.mp hfx
      · exact le_trans hxb (not_le.mp hfb).le
    refine ⟨?_, fun hp => absurd hp h1, fun hn => absurd hn.2 h2⟩
    rw [min_eq_right hxb, min_eq_right hxa]

/-- C7: in every iteration, the candidate point handed to the
objective lies at distance at least `tol1` from the current best point
`xf` (with the `tol1` in force at that iteration). -/
theorem brentStep_min_distance (s : BrentState α) :
    s.tol1 ≤ |evalPoint s (brentProposal s).1 - s.xf| := by
  set d := (brentProposal s).1 with hd
  have hsign : signFix d = 1 ∨ signFix d = -1 := by
    unfold signFix cmp
    split_ifs with h1 h2 <;> simp_all
  have habs : |evalPoint s d - s.xf| = max |d| s.tol1 := by
    unfold evalPoint
    rcases hsign with h | h <;>
      rw [h] <;> push_cast <;>
      simp [abs_of_nonneg, le_max_of_le_left (abs_nonneg d)]
  rw [habs]
  exact le_max_right _ _

/-! ### The bracket invariant: helper lemmas -/

lemma signFix_of_nonneg {d : ℚ} (h : 0 ≤ d) : signFix d = 1 := by
  unfold signFix cmp
  rcases eq_or_lt_of_le h with heq | hpos
  · rw [if_neg (not_lt.mpr h), if_pos heq.symm, if_pos heq.symm]
    norm_num
  · rw [if_neg (not_lt.mpr h), if_neg hpos.ne', if_neg hpos.ne']
    norm_num

lemma signFix_of_neg {d : ℚ} (h : d < 0) : signFix d = -1 := by
  unfold signFix cmp
  rw [if_pos h, if_neg h.ne]
  norm_num

lemma evalPoint_eq (s : BrentState α) (d : ℚ) :
    evalPoint s d =
      if d < 0 then s.xf - max |d| s.tol1 else s.xf + max |d| s.tol1 := by
  rcases lt_trichotomy d 0 with h | h | h
  · rw [if_pos h]
    unfold evalPoint signFix cmp
    rw [if_pos h, if_neg h.ne]
    push_cast
    ring
  · subst h
    rw [if_neg (lt_irrefl 0)]
    unfold evalPoint signFix cmp
    rw [if_neg (lt_irrefl (0 : ℚ)), if_pos rfl, if_pos rfl]
    push_cast
    ring
  · rw [if_neg (not_lt.mpr h.le)]
    unfold evalPoint signFix cmp
    rw [if_neg (not_lt.mpr h.le), if_neg h.ne', if_neg h.ne']
    push_cast
    ring

lemma goldenC_pos : (0 : ℚ) < goldenC := by norm_num [goldenC]

lemma goldenC_le_one : goldenC ≤ 1 := by norm_num [goldenC]

/-- Golden-section step taken toward `a` (when `xf ≥ xm`): the
evaluated point stays inside the bracket. -/
lemma gs_left_mem (s : BrentState α)
    (htol1 : 0 < s.tol1) (hW : 2 * s.tol1 < s.b - s.a)
    (hxm : s.xm = (s.a + s.b) / 2) (hb : s.xf ≤ s.b)
    (hge : s.xm ≤ s.xf) :
    s.a ≤ evalPoint s (goldenC * (s.a - s.xf)) ∧
    evalPoint s (goldenC * (s.a - s.xf)) ≤ s.b := by
  have hfa : (s.b - s.a) / 2 ≤ s.xf - s.a := by rw [hxm] at hge; linarith
  have ht1fa : s.tol1 < s.xf - s.a := by linarith
  have hneg : goldenC * (s.a - s.xf) < 0 :=
    mul_neg_of_pos_of_neg goldenC_pos (by linarith)
  rw [evalPoint_eq, if_pos hneg]
  have habs : |goldenC * (s.a - s.xf)| = goldenC * (s.xf - s.a) := by
    rw [abs_mul, abs_of_pos goldenC_pos, abs_of_neg (show s.a - s.xf < 0 by linarith)]
    ring
  have hle : goldenC * (s.xf - s.a) ≤ s.xf - s.a := by
    nlinarith [goldenC_le_one, goldenC_pos]
  have hmax : max |goldenC * (s.a - s.xf)| s.tol1 ≤ s.xf - s.a := by
    rw [habs]
    exact max_le hle ht1fa.le
  have hmax0 : s.tol1 ≤ max |goldenC * (s.a - s.xf)| s.tol1 := le_max_right _ _
  constructor <;> linarith

/-- Golden-section step taken toward `b` (when `xf < xm`): the
evaluated point stays inside the bracket. -/
lemma gs_right_mem (s : BrentState α)
    (htol1 : 0 < s.tol1) (hW : 2 * s.tol1 < s.b - s.a)
    (hxm : s.xm = (s.a + s.b) / 2) (ha : s.a ≤ s.xf)
    (hlt : s.xf < s.xm) :
    s.a ≤ evalPoint s (goldenC * (s.b - s.xf)) ∧
    evalPoint s (goldenC * (s.b - s.xf)) ≤ s.b := by
  have hfb : (s.b - s.a) / 2 ≤ s.b - s.xf := by rw [hxm] at hlt; linarith
  have ht1fb : s.tol1 < s.b - s.xf := by linarith
  have hpos : 0 < goldenC * (s.b - s.xf) :=
    mul_pos goldenC_pos (by linarith)
  rw [evalPoint_eq, if_neg (not_lt.mpr hpos.le)]
  have habs : |goldenC * (s.b - s.xf)| = goldenC * (s.b - s.xf) := abs_of_pos hpos
  have hle : goldenC * (s.b - s.xf) ≤ s.b - s.xf := by
    nlinarith [goldenC_le_one, goldenC_pos]
  have hmax : max |goldenC * (s.b - s.xf)| s.tol1 ≤ s.b - s.xf := by
    rw [habs]
    exact max_le hle ht1fb.le
  have hmax0 : s.tol1 ≤ max |goldenC * (s.b - s.xf)| s.tol1 := le_max_right _ _
  constructor <;> linarith

/-- Minimal step forced by the endpoint-proximity safeguard: moving
`tol1` from `xf` toward the midpoint stays inside the bracket. -/
lemma prox_mem (s : BrentState α)
    (htol1 : 0 < s.tol1) (hW : 2 * s.tol1 < s.b - s.a)
    (hxm : s.xm = (s.a + s.b) / 2) (ha : s.a ≤ s.xf) (hb : s.xf ≤ s.b) :
    s.a ≤ evalPoint s (s.tol1 * (signFix (s.xm - s.xf) : ℚ)) ∧
    evalPoint s (s.tol1 * (signFix (s.xm - s.xf) : ℚ)) ≤ s.b := by
  rcases le_or_lt s.xf s.xm with hge | hlt
  · have hsf : signFix (s.xm - s.xf) = 1 := signFix_of_nonneg (by linarith)
    rw [hsf]
    have hd : s.tol1 * ((1 : ℤ) : ℚ) = s.tol1 := by push_cast; ring
    rw [hd, evalPoint_eq, if_neg (not_lt.mpr htol1.le), abs_of_pos htol1, max_self]
    have hgap : (s.b - s.a) / 2 ≤ s.b - s.xf := by rw [hxm] at hge; linarith
    constructor <;> linarith
  · have hsf : signFix (s.xm - s.xf) = -1 := signFix_of_neg (by linarith)
    rw [hsf]
    have hd : s.tol1 * ((-1 : ℤ) : ℚ) = -s.tol1 := by push_cast; ring
    rw [hd, evalPoint_eq, if_pos (by linarith : -s.tol1 < 0), abs_neg,
      abs_of_pos htol1, max_self]
    have hgap : (s.b - s.a) / 2 ≤ s.xf - s.a := by rw [hxm] at hlt; linarith
    constructor <;> linarith

/-- Accepted parabolic step that passed the endpoint-proximity check:
the evaluated point stays inside the bracket even after the
minimum-step enforcement. -/
lemma interior_mem (s : BrentState α) (d2 : ℚ)
    (htol1 : 0 < s.tol1) (ht2 : s.tol2 = 2 * s.tol1)
    (ha : s.a ≤ s.xf) (hb : s.xf ≤ s.b)
    (hpa : s.tol2 ≤ s.xf + d2 - s.a) (hpb : s.tol2 ≤ s.b - (s.xf + d2)) :
    s.a ≤ evalPoint s d2 ∧ evalPoint s d2 ≤ s.b := by
  rw [evalPoint_eq]
  rcases lt_or_le d2 0 with hneg | hpos
  · rw [if_pos hneg]
    have habs : |d2| = -d2 := abs_of_neg hneg
    have hmaxle : max |d2| s.tol1 ≤ -d2 + s.tol1 := by
      apply max_le <;> [linarith [habs.ge, habs.le]; linarith [abs_nonneg d2]]
    have hmax0 : (0 : ℚ) ≤ max |d2| s.tol1 :=
      le_trans (abs_nonneg d2) (le_max_left _ _)
    constructor <;> linarith
  · rw [if_neg (not_lt.mpr hpos)]
    have habs : |d2| = d2 := abs_of_nonneg hpos
    have hmaxle : max |d2| s.tol1 ≤ d2 + s.tol1 := by
      apply max_le <;> [linarith [habs.le]; linarith]
    have hmax0 : (0 : ℚ) ≤ max |d2| s.tol1 :=
      le_trans (abs_nonneg d2) (le_max_left _ _)
    constructor <;> linarith

/-- Whatever branch the proposal takes, the point handed to the
objective stays inside the current bracket. -/
lemma brentStep_x_mem (s : BrentState α)
    (htol1 : 0 < s.tol1) (hW : 2 * s.tol1 < s.b - s.a)
    (hxm : s.xm = (s.a + s.b) / 2)
    (ht2 : s.tol2 = 2 * s.tol1)
    (ha : s.a ≤ s.xf) (hb : s.xf ≤ s.b) :
    s.a ≤ evalPoint s (brentProposal s).1 ∧
    evalPoint s (brentProposal s).1 ≤ s.b := by
  simp only [brentProposal]
  split_ifs <;> dsimp only
  all_goals first
    | exact prox_mem s htol1 hW hxm ha hb
    | exact gs_left_mem s htol1 hW hxm hb (by assumption)
    | exact gs_right_mem s htol1 hW hxm ha (not_le.mp (by assumption))
    | (rename_i hno
       rcases not_or.mp hno with ⟨hh1, hh2⟩
       exact interior_mem s _ htol1 ht2 ha hb (not_lt.mp hh1) (not_lt.mp hh2))

/-- C6: one iteration of the main loop preserves the bracket
invariant: when the loop condition holds and the state is consistent
(`xm`, `tol1`, `tol2` as recomputed at the bottom of every iteration,
tolerance already floored to at least `eps`), the new bracket still
contains the new best point and its width does not increase. -/
theorem brentStep_bracket_invariant (tol : ℚ) (f : ℚ → ℚ × α)
    (s : BrentState α)
    (htol : eps ≤ tol) (ha : s.a ≤ s.xf) (hb : s.xf ≤ s.b)
    (hxm : s.xm = (s.a + s.b) / 2)
    (ht1 : s.tol1 = seps * |s.xf| + tol / 3)
    (ht2 : s.tol2 = 2 * s.tol1)
    (hcond : |s.xf - s.xm| > s.tol2 - 1 / 2 * (s.b - s.a)) :
    (brentStep tol f s).a ≤ (brentStep tol f s).xf ∧
    (brentStep tol f s).xf ≤ (brentStep tol f s).b ∧
    (brentStep tol f s).b - (brentStep tol f s).a ≤ s.b - s.a := by
  have htol1 : 0 < s.tol1 := by
    rw [ht1]
    have h1 : (0 : ℚ) ≤ seps * |s.xf| := mul_nonneg (by norm_num [seps]) (abs_nonneg _)
    have h2 : (0 : ℚ) < eps := by norm_num [eps]
    linarith
  have habs2 : |s.xf - s.xm| ≤ (s.b - s.a) / 2 := by
    rw [hxm, abs_le]
    constructor <;> linarith
  have hW : 2 * s.tol1 < s.b - s.a := by
    rw [ht2] at hcond
    linarith
  obtain ⟨hxa, hxb⟩ := brentStep_x_mem s htol1 hW hxm ht2 ha hb
  simp only [brentStep]
  split_ifs <;> dsimp only <;>
    refine ⟨by linarith, by linarith, by linarith⟩

/-- Witness for C6 at a concrete consistent state on the bracket
`[0, 1]` with best point `2/5`. -/
theorem brentStep_bracket_invariant_witness :
    (eps ≤ eps ∧ sampleState.a ≤ sampleState.xf ∧
     sampleState.xf ≤ sampleState.b ∧
     sampleState.xm = (sampleState.a + sampleState.b) / 2 ∧
     sampleState.tol1 = seps * |sampleState.xf| + eps / 3 ∧
     sampleState.tol2 = 2 * sampleState.tol1 ∧
     |sampleState.xf - sampleState.xm| >
       sampleState.tol2 - 1 / 2 * (sampleState.b - sampleState.a)) ∧
    ((brentStep eps sampleObjective sampleState).a ≤
       (brentStep eps sampleObjective sampleState).xf ∧
     (brentStep eps sampleObjective sampleState).xf ≤
       (brentStep eps sampleObjective sampleState).b ∧
     (brentStep eps sampleObjective sampleState).b -
       (brentStep eps sampleObjective sampleState).a ≤
       sampleState.b - sampleState.a) := by
  have h1 : eps ≤ eps := le_rfl
  have h2 : sampleState.a ≤ sampleState.xf := by norm_num [sampleState]
  have h3 : sampleState.xf ≤ sampleState.b := by norm_num [sampleState]
  have h4 : sampleState.xm = (sampleState.a + sampleState.b) / 2 := by
    norm_num [sampleState]
  have h5 : sampleState.tol1 = seps * |sampleState.xf| + eps / 3 := rfl
  have h6 : sampleState.tol2 = 2 * sampleState.tol1 := rfl
  have h7 : |sampleState.xf - sampleState.xm| >
      sampleState.tol2 - 1 / 2 * (sampleState.b - sampleState.a) := by
    have hx : sampleState.xf - sampleState.xm = -(1 / 10) := by
      norm_num [sampleState]
    have habs : |sampleState.xf - sampleState.xm| = 1 / 10 := by
      rw [hx, abs_neg, abs_of_pos] <;> norm_num
    rw [habs]
    show sampleState.tol2 - 1 / 2 * (sampleState.b - sampleState.a) < 1 / 10
    have : sampleState.tol2 = 2 * (seps * (2 / 5) + eps / 3) := by
      norm_num [sampleState]
    rw [this]
    norm_num [sampleState, seps, eps]
  exact ⟨⟨h1, h2, h3, h4, h5, h6, h7⟩,
    brentStep_bracket_invariant eps sampleObjective sampleState
      h1 h2 h3 h4 h5 h6 h7⟩

/-! ### Claim theorem: auxiliary outputs (code bug) -/

/-- C2 (code bug): at the failing input `xlow = 0`, `xupp = 1`,
`Nitmax = 4`, `tol = 1/1000000` with the objective `f(x) = (x, x)`
whose auxiliary output tags the abscissa, the returned `xmin` is `0`
(the lower endpoint wins the final endpoint check) but the returned
auxiliary output is the tag of the last point evaluated inside the
loop, not the tag `0` produced at the winning abscissa — contradicting
the docstring of the source, which promises the auxiliary outputs of
`f` at the optimum. -/
theorem brentmin_varargout_not_at_xmin :
    (brentmin 0 1 4 (1 / 1000000) tagObjective 1).xmin = 0 ∧
    (brentmin 0 1 4 (1 / 1000000) tagObjective 1).varargout ≠
      (tagObjective (brentmin 0 1 4 (1 / 1000000) tagObjective 1).xmin).2 := by
  have hmax : max (1 / 1000000 : ℚ) eps = 1 / 1000000 := by
    rw [max_eq_left]
    norm_num [eps]
  have hs0 : brentInit 0 1 (1 / 1000000) tagObjective =
      ({ a := 0, b := 1, v := goldenC, w := goldenC, xf := goldenC,
         d := 0, e := 0, fv := goldenC, fw := goldenC, fx := goldenC,
         xm := 1 / 2,
         tol1 := seps * goldenC + 1 / 3000000,
         tol2 := 2 * (seps * goldenC + 1 / 3000000),
         funccount := 3, varargout := goldenC } : BrentState ℚ) := by
    have habsC : |(0:ℚ) + goldenC * (1 - 0)| = (0:ℚ) + goldenC * (1 - 0) :=
      abs_of_pos (by norm_num [goldenC])
    simp only [brentInit, tagObjective, habsC]
    norm_num [goldenC]
  have hprop : brentProposal
      ({ a := 0, b := 1, v := goldenC, w := goldenC, xf := goldenC,
         d := 0, e := 0, fv := goldenC, fw := goldenC, fx := goldenC,
         xm := 1 / 2,
         tol1 := seps * goldenC + 1 / 3000000,
         tol2 := 2 * (seps * goldenC + 1 / 3000000),
         funccount := 3, varargout := goldenC } : BrentState ℚ) =
      (goldenC * (1 - goldenC), 1 - goldenC) := by
    simp only [brentProposal]
    rw [if_neg (show ¬ (|(0:ℚ)| > seps * goldenC + 1 / 3000000) by
      norm_num [seps, goldenC])]
    rw [if_neg (show ¬ ((goldenC : ℚ) ≥ 1 / 2) by norm_num [goldenC])]
  have hx : evalPoint
      ({ a := 0, b := 1, v := goldenC, w := goldenC, xf := goldenC,
         d := 0, e := 0, fv := goldenC, fw := goldenC, fx := goldenC,
         xm := 1 / 2,
         tol1 := seps * goldenC + 1 / 3000000,
         tol2 := 2 * (seps * goldenC + 1 / 3000000),
         funccount := 3, varargout := goldenC } : BrentState ℚ)
      (goldenC * (1 - goldenC)) = goldenC + goldenC * (1 - goldenC) := by
    rw [evalPoint_eq,
      if_neg (show ¬ (goldenC * (1 - goldenC) < 0) by norm_num [goldenC])]
    dsimp only
    rw [abs_of_pos (show (0:ℚ) < goldenC * (1 - goldenC) by norm_num [goldenC]),
      max_eq_left (show seps * goldenC + 1 / 3000000 ≤ goldenC * (1 - goldenC) by
        norm_num [seps, goldenC])]
  have hstep : brentStep (1 / 1000000) tagObjective
      ({ a := 0, b := 1, v := goldenC, w := goldenC, xf := goldenC,
         d := 0, e := 0, fv := goldenC, fw := goldenC, fx := goldenC,
         xm := 1 / 2,
         tol1 := seps * goldenC + 1 / 3000000,
         tol2 := 2 * (seps * goldenC + 1 / 3000000),
         funccount := 3, varargout := goldenC } : BrentState ℚ) =
      ({ a := 0, b := goldenC + goldenC * (1 - goldenC), v := goldenC,
         w := goldenC + goldenC * (1 - goldenC), xf := goldenC,
         d := goldenC * (1 - goldenC), e := 1 - goldenC,
         fv := goldenC, fw := goldenC + goldenC * (1 - goldenC), fx := goldenC,
         xm := (0 + (goldenC + goldenC * (1 - goldenC))) / 2,
         tol1 := seps * |goldenC| + 1 / 1000000 / 3,
         tol2 := 2 * (seps * |goldenC| + 1 / 1000000 / 3),
         funccount := 4,
         varargout := goldenC + goldenC * (1 - goldenC) } : BrentState ℚ) := by
    simp only [brentStep, hprop, hx, tagObjective]
    have hgt : ¬ (goldenC + goldenC * (1 - goldenC) ≤ goldenC) := by
      norm_num [goldenC]
    have hlt : ¬ (goldenC + goldenC * (1 - goldenC) < goldenC) := by
      norm_num [goldenC]
    simp only [if_neg hgt, if_neg hlt, or_true, ite_true]
  have hloop : brentLoop 4 (1 / 1000000) tagObjective (4 + 1)
      ({ a := 0, b := 1, v := goldenC, w := goldenC, xf := goldenC,
         d := 0, e := 0, fv := goldenC, fw := goldenC, fx := goldenC,
         xm := 1 / 2,
         tol1 := seps * goldenC + 1 / 3000000,
         tol2 := 2 * (seps * goldenC + 1 / 3000000),
         funccount := 3, varargout := goldenC } : BrentState ℚ) =
      ({ a := 0, b := goldenC + goldenC * (1 - goldenC), v := goldenC,
         w := goldenC + goldenC * (1 - goldenC), xf := goldenC,
         d := goldenC * (1 - goldenC), e := 1 - goldenC,
         fv := goldenC, fw := goldenC + goldenC * (1 - goldenC), fx := goldenC,
         xm := (0 + (goldenC + goldenC * (1 - goldenC))) / 2,
         tol1 := seps * |goldenC| + 1 / 1000000 / 3,
         tol2 := 2 * (seps * |goldenC| + 1 / 1000000 / 3),
         funccount := 4,
         varargout := goldenC + goldenC * (1 - goldenC) } : BrentState ℚ) := by
    rw [brentLoop_succ]
    dsimp only
    rw [if_pos (show |goldenC - 1 / 2| >
        2 * (seps * goldenC + 1 / 3000000) - 1 / 2 * (1 - 0) by
      rw [abs_of_neg (show goldenC - (1:ℚ)/2 < 0 by norm_num [goldenC])]
      norm_num [goldenC, seps])]
    rw [hstep]
    dsimp only
    rw [if_pos (le_refl 4)]
  have hcore : brentCore 0 1 4 (1 / 1000000) tagObjective =
      ({ a := 0, b := goldenC + goldenC * (1 - goldenC), v := goldenC,
         w := goldenC + goldenC * (1 - goldenC), xf := goldenC,
         d := goldenC * (1 - goldenC), e := 1 - goldenC,
         fv := goldenC, fw := goldenC + goldenC * (1 - goldenC), fx := goldenC,
         xm := (0 + (goldenC + goldenC * (1 - goldenC))) / 2,
         tol1 := seps * |goldenC| + 1 / 1000000 / 3,
         tol2 := 2 * (seps * |goldenC| + 1 / 1000000 / 3),
         funccount := 4,
         varargout := goldenC + goldenC * (1 - goldenC) } : BrentState ℚ) := by
    unfold brentCore
    rw [hmax, hs0, hloop]
  simp only [brentmin, hcore, tagObjective]
  rw [if_pos (show (0:ℚ) < goldenC ∧ (0:ℚ) ≤ (1:ℚ) by
    constructor <;> norm_num [goldenC])]
  dsimp only
  constructor
  · rfl
  · norm_num [goldenC]

end tools
